import Mathlib

/-!
Verification of the sample-preparation pipeline in
`src/perkeep/datasets/pipeline.py`.

The embedding models samples as mapping-like records (key lookup returning
an optional value, plus key enumeration), pipeline stages as list
transformations, and the generator-based `XYAdapter` iteration as the
stream of values it yields, indexed by pull position.

Parts of the repository referenced by `pipeline.py` but absent from the
sources (`common.DelegateSample`, `common.split`) and the standard-library
`random.shuffle` are modelled abstractly, as documented on the relevant
definitions.
-/

namespace Perkeep

/-- A sample: an opaque mapping-like entity from a probe identifier to a
value.  Lookup returns the value or signals absence; `keys` enumerates the
visible probe identifiers in order. -/
structure Sample (K V : Type) where
  getItem : K → Option V
  keys : List K

/-- Modelled from the spec: `common.DelegateSample` is not among the
sources; per the spec a `ReducedSample` is "a read-only view over a
delegate Sample".  The subclass in `pipeline.py` overrides both lookup and
enumeration, so only the stored delegate is relevant here.
`ReducedSample.__getitem__` returns `self.delegate[probe_id]` when the
probe identifier is in the reduction set and `None` otherwise;
`ReducedSample.keys` returns the reduction in its given order. -/
def ReducedSample {K V : Type} [DecidableEq K]
    (delegate : Sample K V) (reduction : List K) : Sample K V where
  getItem probe_id := if probe_id ∈ reduction then delegate.getItem probe_id else none
  keys := reduction

/-- A reducer is either a callable transform or a collection of probe
identifiers (the `callable(reducer)` test in `Pipeline._reduce_sample`,
re-expressed as a tagged variant). -/
inductive Reducer (K V : Type) where
  | callable (f : Sample K V → Sample K V)
  | keyList (reduction : List K)

/-- `Pipeline._reduce_sample`: fold the reducers over the sample in
configured order; a callable reducer is applied, a key collection wraps
the current sample in a `ReducedSample`. -/
def reduceSample {K V : Type} [DecidableEq K] :
    List (Reducer K V) → Sample K V → Sample K V
  | [], s => s
  | Reducer.callable f :: rest, s => reduceSample rest (f s)
  | Reducer.keyList r :: rest, s => reduceSample rest (ReducedSample s r)

/-- The skip condition of `Pipeline._reduced_samples`:
`len(self.filters) > 0 and not any(map(lambda f: f(sample), self.filters))`. -/
def skipSample {K V : Type} (filters : List (Sample K V → Bool))
    (s : Sample K V) : Bool :=
  decide (filters.length > 0) && !(filters.any (fun f => f s))

/-- `Pipeline._reduced_samples`: for each input sample, skip it when the
skip condition holds, otherwise reduce it and yield it. -/
def reducedSamples {K V : Type} [DecidableEq K]
    (filters : List (Sample K V → Bool)) (reducers : List (Reducer K V)) :
    List (Sample K V) → List (Sample K V)
  | [] => []
  | s :: rest =>
    if skipSample filters s then
      reducedSamples filters reducers rest
    else
      reduceSample reducers s :: reducedSamples filters reducers rest

/-- The inner loop of `Pipeline._extended_samples` for one sample:
starting from `[sample]`, each extender is applied to every sample of the
current collection and the results are chained
(`itertools.chain(*[extender(s) for s in extended_samples])`). -/
def extendSample {A : Type} (extenders : List (A → List A)) (s : A) : List A :=
  extenders.foldl (fun acc e => acc.flatMap e) [s]

/-- `Pipeline._extended_samples`: yield, for each input sample in order,
every sample of its extension. -/
def extendedSamples {A : Type} (extenders : List (A → List A))
    (samples : List A) : List A :=
  samples.flatMap (extendSample extenders)

/-- `XYAdapter`: a view over a materialized sample collection plus a
mapper and batch size.  `batch_size` is an integer, as in Python. -/
structure XYAdapter (S Y : Type) where
  samples : List S
  mapper : S → Y
  batch_size : Int

/-- `XYAdapter.__len__`. -/
def XYAdapter.len {S Y : Type} (a : XYAdapter S Y) : Nat :=
  a.samples.length

/-- The values yielded by the first `t` iterations of the `while True`
loop in `XYAdapter.__iter__`: each pass yields `self.mapper(sample)` for
every stored sample, in order. -/
def XYAdapter.passes {S Y : Type} (a : XYAdapter S Y) (t : Nat) : List Y :=
  (List.replicate t (a.samples.map a.mapper)).flatten

/-- The k-th value (0-based) produced by iterating the adapter, when the
iteration ever produces one.  After `k + 1` passes of the outer loop the
iteration has produced at least `k + 1` values whenever the sample
collection is non-empty; when it is empty no pass yields anything and the
generator loops forever without yielding, so position `k` is never
reached. -/
def XYAdapter.iterGet {S Y : Type} (a : XYAdapter S Y) (k : Nat) : Option Y :=
  (a.passes (k + 1)).get? k

/-- The body of one batch in `XYAdapter.batch_arrays`: pull `cnt`
successive values from the iteration starting at position `start`
(`for i in range(self.batch_size): batch_array.append(next(sample_iter))`).
A pull at a position the iteration never reaches blocks forever, so the
batch is never yielded (`none`). -/
def XYAdapter.collectPulls {S Y : Type} (a : XYAdapter S Y) :
    Nat → Nat → Option (List Y)
  | _, 0 => some []
  | start, cnt + 1 =>
    match a.iterGet start with
    | none => none
    | some y =>
      match a.collectPulls (start + 1) cnt with
      | none => none
      | some ys => some (y :: ys)

/-- The k-th batch (0-based) yielded by `XYAdapter.batch_arrays`: batch
`k` consumes the iteration positions `k * batch_size` up to
`(k + 1) * batch_size - 1`.  `range(self.batch_size)` has
`max(batch_size, 0)` elements, hence the `Int.toNat`. -/
def XYAdapter.batchGet {S Y : Type} (a : XYAdapter S Y) (k : Nat) :
    Option (List Y) :=
  a.collectPulls (k * a.batch_size.toNat) a.batch_size.toNat

/-- The `Pipeline` configuration fields used by the modelled operations.
The `categories` mapping only feeds the external split utility and is
absorbed into the abstract split parameter of `Pipeline.split`. -/
structure Pipeline (K V Y : Type) where
  filters : List (Sample K V → Bool)
  reducers : List (Reducer K V)
  extenders : List (Sample K V → List (Sample K V))
  mapper : Sample K V → Y
  batch_size : Int
  shuffle : Bool

/-- `Pipeline.append_reduced_samples`: append each sample produced by
`_reduced_samples(samples_input)` to the output sink, in order.  The
returned list is the final content of the sink. -/
def Pipeline.append_reduced_samples {K V Y : Type} [DecidableEq K]
    (p : Pipeline K V Y) (samples_input samples_output : List (Sample K V)) :
    List (Sample K V) :=
  samples_output ++ reducedSamples p.filters p.reducers samples_input

/-- `Pipeline.get`.  `random.shuffle` is standard-library code; it is
modelled by an explicit reordering function `rng` (assumptions about it,
such as producing a permutation, appear as hypotheses of the theorems). -/
def Pipeline.get {K V Y : Type} [DecidableEq K] (p : Pipeline K V Y)
    (rng : List (Sample K V) → List (Sample K V))
    (samples : List (Sample K V)) : XYAdapter (Sample K V) Y :=
  let reduced := reducedSamples p.filters p.reducers samples
  let extended := extendedSamples p.extenders reduced
  let materialized := if p.shuffle then rng extended else extended
  XYAdapter.mk materialized p.mapper p.batch_size

/-- `Pipeline.split`.  Modelled from the spec: `common.split` is not among
the sources; per the spec it "partitions a sequence into named fractions"
deterministically, so it is taken as an abstract parameter `commonSplit`
from samples to named groups (the `categories` fractions are absorbed into
it), each category appearing once as in a Python dict.  The dict update of
the `'train'` entry, when present, becomes a map over the association
list; `random.shuffle` is the abstract `rng` as in `Pipeline.get`. -/
def Pipeline.split {K V Y : Type} [DecidableEq K] (p : Pipeline K V Y)
    (rng : List (Sample K V) → List (Sample K V))
    (commonSplit : List (Sample K V) → List (String × List (Sample K V)))
    (samples : List (Sample K V)) : List (String × XYAdapter (Sample K V) Y) :=
  let reduced_samples := reducedSamples p.filters p.reducers samples
  let splitted_samples := commonSplit reduced_samples
  let splitted_samples := splitted_samples.map (fun cs =>
    if cs.1 = "train" then
      (cs.1,
        let extended := extendedSamples p.extenders cs.2
        if p.shuffle then rng extended else extended)
    else cs)
  splitted_samples.map (fun cs => (cs.1, XYAdapter.mk cs.2 p.mapper p.batch_size))

/-- The module-level `identity` function (the default mapper). -/
def identity {A : Type} (x : A) : A :=
  x

/-- Concrete adapter over three samples with the identity mapper and the
default batch size, used to instantiate the cycling theorem. -/
def witAdapter : XYAdapter Nat Nat :=
  XYAdapter.mk [1, 2, 3] identity 128

/-- Concrete adapter over three samples with the identity mapper and
batch size 2, used to instantiate the batch-composition theorem. -/
def witAdapter2 : XYAdapter Nat Nat :=
  XYAdapter.mk [1, 2, 3] identity 2

/-- Concrete adapter over zero samples, used to instantiate the
empty-collection stall theorem. -/
def emptyAdapter : XYAdapter Nat Nat :=
  XYAdapter.mk [] identity 128

/-- Concrete adapter with a negative batch size, used to instantiate the
non-positive batch size theorem. -/
def negAdapter : XYAdapter Nat Nat :=
  XYAdapter.mk ([] : List Nat) identity (-3)

/-- Concrete delegate sample with keys a, b, c, used to instantiate the
reduced-sample theorem. -/
def witDelegate : Sample String Nat where
  getItem k :=
    if k = "a" then some 1 else if k = "b" then some 2 else
    if k = "c" then some 3 else none
  keys := ["a", "b", "c"]

/-- Concrete extender producing two outputs per input. -/
def witE1 : Nat → List Nat :=
  fun n => [n, n + 1]

/-- Concrete extender producing three outputs per input. -/
def witE2 : Nat → List Nat :=
  fun n => [n, n + 1, n + 2]

/-- A concrete sample used by the pipeline-level witnesses. -/
def witSample : Sample Nat Nat where
  getItem _ := none
  keys := []

/-- A concrete pipeline configuration used by the pipeline-level
witnesses: no filters, reducers or extenders, identity mapper, shuffle
disabled. -/
def witPipeline : Pipeline Nat Nat (Sample Nat Nat) :=
  Pipeline.mk [] [] [] identity 128 false

/-- A concrete split utility used by the split witness: puts the whole
input in the train group and adds an empty validate group. -/
def witCommonSplit :
    List (Sample Nat Nat) → List (String × List (Sample Nat Nat)) :=
  fun red => [("train", red), ("validate", [])]

theorem reduceSample_nil {K V : Type} [DecidableEq K] (s : Sample K V) :
    reduceSample ([] : List (Reducer K V)) s = s :=
  rfl

theorem reducedSamples_eq_filter_map {K V : Type} [DecidableEq K]
    (filters : List (Sample K V → Bool)) (reducers : List (Reducer K V))
    (samples : List (Sample K V)) :
    reducedSamples filters reducers samples =
      (samples.filter (fun s => !(skipSample filters s))).map (reduceSample reducers) := by
  induction samples with
  | nil => rfl
  | cons s rest ih =>
    by_cases h : skipSample filters s
    · simp [reducedSamples, List.filter_cons, h, ih]
    · simp [reducedSamples, List.filter_cons, h, ih]

theorem not_skipSample_eq {K V : Type}
    (filters : List (Sample K V → Bool)) (s : Sample K V) :
    (!(skipSample filters s)) =
      (filters.isEmpty || filters.any (fun f => f s)) := by
  cases filters with
  | nil => rfl
  | cons f rest => simp [skipSample]

/-- C3: the filter stage keeps a sample iff the filter list is empty or
some predicate accepts it (logical OR), preserving the original relative
order; with no filters and no reducers the stage output is the input
unchanged. -/
theorem filter_inclusion_semantics {K V : Type} [DecidableEq K]
    (filters : List (Sample K V → Bool)) (reducers : List (Reducer K V))
    (samples : List (Sample K V)) :
    reducedSamples filters reducers samples =
      (samples.filter (fun s => filters.isEmpty || filters.any (fun f => f s))).map
        (reduceSample reducers) ∧
    reducedSamples ([] : List (Sample K V → Bool)) ([] : List (Reducer K V)) samples =
      samples := by
  constructor
  · rw [reducedSamples_eq_filter_map]
    congr 1
    apply List.filter_congr
    intro s _
    exact not_skipSample_eq filters s
  · rw [reducedSamples_eq_filter_map]
    have hfil :
        samples.filter
          (fun s => !(skipSample ([] : List (Sample K V → Bool)) s)) = samples := by
      apply List.filter_eq_self.mpr
      intro s _
      simp [skipSample]
    rw [hfil]
    have hmap :
        samples.map (reduceSample ([] : List (Reducer K V))) =
          samples.map (fun s => s) :=
      List.map_congr_left (fun s _ => reduceSample_nil s)
    rw [hmap, List.map_id']

/-- C8: `append_reduced_samples` appends to the sink exactly the filter
stage followed by the reduce stage over the input, one sample at a time in
input order, with no shuffling, extension or batching: the final sink
content is the original sink followed by a manual filter-then-reduce. -/
theorem append_reduced_samples_spec {K V Y : Type} [DecidableEq K]
    (p : Pipeline K V Y) (samples_input samples_output : List (Sample K V)) :
    p.append_reduced_samples samples_input samples_output =
      samples_output ++
        (samples_input.filter
          (fun s => p.filters.isEmpty || p.filters.any (fun f => f s))).map
          (reduceSample p.reducers) := by
  unfold Pipeline.append_reduced_samples
  rw [reducedSamples_eq_filter_map]
  congr 2
  apply List.filter_congr
  intro s _
  exact not_skipSample_eq p.filters s

/-- C4: a `ReducedSample` over delegate `d` with reduction `r` returns
the delegate's value for probe identifiers in `r`, returns absent (not an
error) for probe identifiers outside `r`, and enumerates exactly the keys
of `r` in the order `r` specifies. -/
theorem reduced_sample_view {K V : Type} [DecidableEq K]
    (d : Sample K V) (r : List K) :
    (∀ k, k ∈ r → (ReducedSample d r).getItem k = d.getItem k) ∧
    (∀ k, k ∉ r → (ReducedSample d r).getItem k = none) ∧
    (ReducedSample d r).keys = r := by
  refine ⟨fun k hk => ?_, fun k hk => ?_, rfl⟩
  · simp [ReducedSample, hk]
  · simp [ReducedSample, hk]

/-- Witness for C4 at a delegate with keys a, b, c and reduction [a, c]:
lookups of a and c return the original values, lookup of b returns
absent, enumeration is exactly [a, c]. -/
theorem reduced_sample_view_witness :
    (ReducedSample witDelegate ["a", "c"]).getItem "a" = some 1 ∧
    (ReducedSample witDelegate ["a", "c"]).getItem "c" = some 3 ∧
    (ReducedSample witDelegate ["a", "c"]).getItem "b" = none ∧
    (ReducedSample witDelegate ["a", "c"]).keys = ["a", "c"] := by
  obtain ⟨hin, hout, hkeys⟩ := reduced_sample_view witDelegate ["a", "c"]
  refine ⟨?_, ?_, ?_, hkeys⟩
  · rw [hin "a" (by decide)]; rfl
  · rw [hin "c" (by decide)]; rfl
  · exact hout "b" (by decide)

theorem flatMap_length_of_uniform {A : Type} (e : A → List A) (c : Nat)
    (h : ∀ x, (e x).length = c) :
    ∀ l : List A, (l.flatMap e).length = c * l.length := by
  intro l
  induction l with
  | nil => simp
  | cons x rest ih =>
    simp [List.flatMap_cons, h, ih, Nat.mul_succ]
    omega

/-- C5: extenders compose left to right (appending one more extender
applies it to every sample of the previous stage's output); an extender
producing 2 outputs per input followed by one producing 3 outputs per
input yields 6 outputs for one sample; with no extenders a sample passes
through as a singleton and the extension stage is the identity on the
sample sequence. -/
theorem extender_fan_out {A : Type} (es : List (A → List A))
    (e e1 e2 : A → List A) (s : A)
    (h1 : ∀ x, (e1 x).length = 2) (h2 : ∀ x, (e2 x).length = 3) :
    extendSample (es ++ [e]) s = (extendSample es s).flatMap e ∧
    (extendSample [e1, e2] s).length = 6 ∧
    extendSample ([] : List (A → List A)) s = [s] ∧
    ∀ S : List A, extendedSamples ([] : List (A → List A)) S = S := by
  refine ⟨?_, ?_, rfl, fun S => ?_⟩
  · unfold extendSample
    rw [List.foldl_append]
    rfl
  · have hstep : extendSample [e1, e2] s = (e1 s).flatMap e2 := by
      simp [extendSample]
    rw [hstep, flatMap_length_of_uniform e2 3 h2, h1]
  · have : extendedSamples ([] : List (A → List A)) S =
        S.flatMap (fun x => [x]) := rfl
    rw [this, List.flatMap_singleton']

/-- Witness for C5 at concrete extenders with fan-outs 2 and 3: one
sample yields 6 outputs, no extenders pass a sample through as a
singleton and leave a sequence unchanged. -/
theorem extender_fan_out_witness :
    (extendSample [witE1, witE2] 0).length = 6 ∧
    extendSample ([] : List (Nat → List Nat)) 0 = [0] ∧
    extendedSamples ([] : List (Nat → List Nat)) [1, 2] = [1, 2] := by
  obtain ⟨-, hlen, hsing, hseq⟩ :=
    extender_fan_out ([] : List (Nat → List Nat)) witE1 witE1 witE2 0
      (fun x => rfl) (fun x => rfl)
  exact ⟨hlen, hsing, hseq [1, 2]⟩

theorem flatten_replicate_get {A : Type} (l : List A) :
    ∀ (t k : Nat), k < t * l.length →
      ((List.replicate t l).flatten).get? k = l.get? (k % l.length) := by
  intro t
  induction t with
  | zero => intro k hk; omega
  | succ t ih =>
    intro k hk
    rw [List.replicate_succ, List.flatten_cons]
    by_cases hlt : k < l.length
    · rw [List.get?_append hlt, Nat.mod_eq_of_lt hlt]
    · have hge : l.length ≤ k := Nat.le_of_not_lt hlt
      rw [List.get?_append_right hge]
      have hs : (t + 1) * l.length = t * l.length + l.length :=
        Nat.succ_mul t l.length
      rw [ih (k - l.length) (by omega)]
      rw [Nat.mod_eq_sub_mod hge]

theorem iterGet_closed_form {S Y : Type} (a : XYAdapter S Y)
    (h : 0 < a.samples.length) (k : Nat) :
    a.iterGet k = (a.samples.get? (k % a.samples.length)).map a.mapper := by
  unfold XYAdapter.iterGet XYAdapter.passes
  have hlen : (a.samples.map a.mapper).length = a.samples.length :=
    List.length_map a.samples a.mapper
  have hk : k < (k + 1) * (a.samples.map a.mapper).length := by
    rw [hlen]
    calc k < k + 1 := Nat.lt_succ_self k
    _ = (k + 1) * 1 := (Nat.mul_one _).symm
    _ ≤ (k + 1) * a.samples.length := Nat.mul_le_mul_left _ h
  rw [flatten_replicate_get (a.samples.map a.mapper) (k + 1) k hk]
  rw [hlen, List.get?_map]

/-- C1: over a non-empty sample collection, the adapter's iteration
produces a value at every pull position, and the k-th pulled value is the
mapper applied to sample `k mod n` of the stored collection, cycling
forever. -/
theorem adapter_iteration_cycles {S Y : Type} (a : XYAdapter S Y)
    (h : 0 < a.samples.length) (k : Nat) :
    a.iterGet k = (a.samples.get? (k % a.samples.length)).map a.mapper :=
  iterGet_closed_form a h k

/-- Witness for C1 at the adapter over [1, 2, 3] with the identity
mapper: the closed form holds at pull 6 and the first 7 pulled values are
[1, 2, 3, 1, 2, 3, 1]. -/
theorem adapter_iteration_cycles_witness :
    witAdapter.iterGet 6 =
      (witAdapter.samples.get? (6 % witAdapter.samples.length)).map witAdapter.mapper ∧
    (List.range 7).map witAdapter.iterGet =
      [some 1, some 2, some 3, some 1, some 2, some 3, some 1] :=
  ⟨adapter_iteration_cycles witAdapter (by decide) 6, by decide⟩

theorem collectPulls_all_some {S Y : Type} (a : XYAdapter S Y)
    (g : Nat → Y) (hall : ∀ i, a.iterGet i = some (g i)) :
    ∀ (cnt start : Nat),
      a.collectPulls start cnt = some ((List.range cnt).map (fun j => g (start + j))) := by
  intro cnt
  induction cnt with
  | zero => intro start; rfl
  | succ cnt ih =>
    intro start
    rw [XYAdapter.collectPulls, hall start, ih (start + 1)]
    rw [List.range_succ_eq_map]
    simp only [List.map_cons, List.map_map, Nat.add_zero]
    have hfun :
        (List.range cnt).map (fun j => g (start + 1 + j)) =
          (List.range cnt).map ((fun j => g (start + j)) ∘ Nat.succ) := by
      apply List.map_congr_left
      intro x _
      show g (start + 1 + x) = g (start + (x + 1))
      rw [Nat.add_assoc, Nat.add_comm 1 x]
    rw [hfun]

/-- C2: over a non-empty sample collection of size n, every batch is
yielded, has exactly `max(batch_size, 0)` elements, and its j-th element
(for the k-th batch) is the mapper applied to sample
`(k * batch_size + j) mod n`; in particular batches wrap around the
collection. -/
theorem batch_composition {S Y : Type} (a : XYAdapter S Y)
    (h : 0 < a.samples.length) (k : Nat) :
    a.batchGet k = some ((List.range a.batch_size.toNat).map
      (fun j => a.mapper (a.samples.get
        ⟨(k * a.batch_size.toNat + j) % a.samples.length, Nat.mod_lt _ h⟩))) := by
  have hall : ∀ i, a.iterGet i =
      some (a.mapper (a.samples.get ⟨i % a.samples.length, Nat.mod_lt _ h⟩)) := by
    intro i
    rw [iterGet_closed_form a h i]
    rw [List.get?_eq_get (Nat.mod_lt _ h)]
    rfl
  unfold XYAdapter.batchGet
  rw [collectPulls_all_some a
    (fun i => a.mapper (a.samples.get ⟨i % a.samples.length, Nat.mod_lt _ h⟩))
    hall a.batch_size.toNat (k * a.batch_size.toNat)]

/-- Witness for C2 at the adapter over [1, 2, 3] with the identity mapper
and batch size 2: the first two batches are [1, 2] and [3, 1]. -/
theorem batch_composition_witness :
    witAdapter2.batchGet 0 = some [1, 2] ∧
    witAdapter2.batchGet 1 = some [3, 1] := by
  have h0 := batch_composition witAdapter2 (by decide) 0
  have h1 := batch_composition witAdapter2 (by decide) 1
  refine ⟨?_, ?_⟩
  · rw [h0]; rfl
  · rw [h1]; rfl

theorem flatten_replicate_nil {A : Type} :
    ∀ t : Nat, (List.replicate t ([] : List A)).flatten = [] := by
  intro t
  induction t with
  | zero => rfl
  | succ t ih => rw [List.replicate_succ, List.flatten_cons, List.nil_append, ih]

/-- C9: over an empty sample collection, iterating the adapter never
produces a value at any pull position, and with a positive batch size no
batch is ever yielded: both stall indefinitely instead of failing with an
explicit error. -/
theorem empty_adapter_stalls {S Y : Type} (a : XYAdapter S Y)
    (h : a.samples = []) :
    (∀ k, a.iterGet k = none) ∧
    (0 < a.batch_size → ∀ k, a.batchGet k = none) := by
  have hiter : ∀ k, a.iterGet k = none := by
    intro k
    unfold XYAdapter.iterGet XYAdapter.passes
    rw [h]
    simp [flatten_replicate_nil]
  refine ⟨hiter, fun hb k => ?_⟩
  have hm : ∃ m, a.batch_size.toNat = m + 1 := ⟨a.batch_size.toNat - 1, by omega⟩
  obtain ⟨m, hm⟩ := hm
  unfold XYAdapter.batchGet
  rw [hm]
  rw [XYAdapter.collectPulls, hiter]

/-- Witness for C9 at an adapter over zero samples with batch size 128:
pulls 0 and 41 produce nothing and batch 0 is never yielded. -/
theorem empty_adapter_stalls_witness :
    emptyAdapter.iterGet 0 = none ∧
    emptyAdapter.iterGet 41 = none ∧
    emptyAdapter.batchGet 0 = none :=
  ⟨(empty_adapter_stalls emptyAdapter rfl).1 0,
   (empty_adapter_stalls emptyAdapter rfl).1 41,
   (empty_adapter_stalls emptyAdapter rfl).2 (by decide) 0⟩

/-- C10: with a zero or negative batch size, every batch loop pulls zero
items, so `batch_arrays` yields an unbounded sequence of empty batches
without error, even over an empty sample collection. -/
theorem nonpositive_batch_size_empty_batches {S Y : Type}
    (a : XYAdapter S Y) (h : a.batch_size ≤ 0) (k : Nat) :
    a.batchGet k = some [] := by
  have h0 : a.batch_size.toNat = 0 := by omega
  unfold XYAdapter.batchGet
  rw [h0]
  rfl

/-- Witness for C10 at an adapter over zero samples with batch size -3:
batches 0 and 5 are both yielded and empty. -/
theorem nonpositive_batch_size_empty_batches_witness :
    negAdapter.batchGet 0 = some [] ∧ negAdapter.batchGet 5 = some [] :=
  ⟨nonpositive_batch_size_empty_batches negAdapter (by decide) 0,
   nonpositive_batch_size_empty_batches negAdapter (by decide) 5⟩

/-- C6: provided the shuffle reorders a list into a permutation of
itself (the contract of `random.shuffle`), the collection materialized by
`Pipeline.get` is a permutation of the filtered-reduced-extended
sequence; with the shuffle flag false it is exactly that sequence, in
order. -/
theorem get_shuffle_permutation {K V Y : Type} [DecidableEq K]
    (p : Pipeline K V Y) (rng : List (Sample K V) → List (Sample K V))
    (hrng : ∀ l, (rng l).Perm l) (samples : List (Sample K V)) :
    ((p.get rng samples).samples).Perm
      (extendedSamples p.extenders (reducedSamples p.filters p.reducers samples)) ∧
    (p.shuffle = false →
      (p.get rng samples).samples =
        extendedSamples p.extenders (reducedSamples p.filters p.reducers samples)) := by
  constructor
  · by_cases hs : p.shuffle
    · simp only [Pipeline.get, hs, if_true]
      exact hrng _
    · simp only [Pipeline.get, hs, Bool.false_eq_true, if_false]
      exact List.Perm.refl _
  · intro hs
    simp only [Pipeline.get, hs, Bool.false_eq_true, if_false]

/-- Witness for C6 at a concrete pipeline with shuffle disabled and
list reversal standing for the random shuffle. -/
theorem get_shuffle_permutation_witness :
    ((witPipeline.get List.reverse [witSample]).samples).Perm
      (extendedSamples witPipeline.extenders
        (reducedSamples witPipeline.filters witPipeline.reducers [witSample])) ∧
    (witPipeline.get List.reverse [witSample]).samples =
      extendedSamples witPipeline.extenders
        (reducedSamples witPipeline.filters witPipeline.reducers [witSample]) :=
  ⟨(get_shuffle_permutation witPipeline List.reverse
      (fun l => l.reverse_perm) [witSample]).1,
   (get_shuffle_permutation witPipeline List.reverse
      (fun l => l.reverse_perm) [witSample]).2 rfl⟩

/-- C7: `Pipeline.split` computes the split over the reduced
(pre-extension) samples; every non-train group is wrapped in its adapter
unchanged (neither extended nor shuffled), the train group, when present,
is extended and then shuffled before wrapping, and the resulting category
names are exactly those of the split, in order. -/
theorem split_train_only_extended {K V Y : Type} [DecidableEq K]
    (p : Pipeline K V Y) (rng : List (Sample K V) → List (Sample K V))
    (commonSplit : List (Sample K V) → List (String × List (Sample K V)))
    (samples : List (Sample K V)) :
    (∀ c g, (c, g) ∈ commonSplit (reducedSamples p.filters p.reducers samples) →
      c ≠ "train" →
      (c, XYAdapter.mk g p.mapper p.batch_size) ∈ p.split rng commonSplit samples) ∧
    (∀ g, ("train", g) ∈ commonSplit (reducedSamples p.filters p.reducers samples) →
      ("train", XYAdapter.mk
        (if p.shuffle then rng (extendedSamples p.extenders g)
         else extendedSamples p.extenders g) p.mapper p.batch_size)
        ∈ p.split rng commonSplit samples) ∧
    (p.split rng commonSplit samples).map Prod.fst =
      (commonSplit (reducedSamples p.filters p.reducers samples)).map Prod.fst := by
  refine ⟨fun c g hmem hc => ?_, fun g hmem => ?_, ?_⟩
  · simp only [Pipeline.split, List.map_map]
    apply List.mem_map.mpr
    refine ⟨(c, g), hmem, ?_⟩
    simp [Function.comp, hc]
  · simp only [Pipeline.split, List.map_map]
    apply List.mem_map.mpr
    refine ⟨("train", g), hmem, ?_⟩
    simp [Function.comp]
  · simp only [Pipeline.split, List.map_map]
    apply List.map_congr_left
    intro x _
    by_cases hx : x.1 = "train" <;> simp [Function.comp, hx]

/-- Witness for C7 at a concrete pipeline with shuffle disabled, the
identity standing for the random shuffle, and a split utility producing a
train and a validate group: the validate group is wrapped unchanged, the
train group is wrapped extended, and the category names survive. -/
theorem split_train_only_extended_witness :
    ("validate", XYAdapter.mk ([] : List (Sample Nat Nat))
        witPipeline.mapper witPipeline.batch_size) ∈
      witPipeline.split id witCommonSplit [] ∧
    ("train", XYAdapter.mk
        (if witPipeline.shuffle then
          id (extendedSamples witPipeline.extenders ([] : List (Sample Nat Nat)))
         else extendedSamples witPipeline.extenders ([] : List (Sample Nat Nat)))
        witPipeline.mapper witPipeline.batch_size) ∈
      witPipeline.split id witCommonSplit [] ∧
    (witPipeline.split id witCommonSplit []).map Prod.fst =
      (witCommonSplit
        (reducedSamples witPipeline.filters witPipeline.reducers [])).map Prod.fst := by
  obtain ⟨hother, htrain, hnames⟩ :=
    split_train_only_extended witPipeline id witCommonSplit []
  refine ⟨?_, ?_, hnames⟩
  · exact hother "validate" []
      (List.mem_cons_of_mem _ (List.mem_cons_self _ _)) (by decide)
  · exact htrain [] (List.mem_cons_self _ _)

end Perkeep
